import Mathlib

/-!
Shallow embedding of the `quran` live-recitation front-end (src/App.tsx and
src/types.ts).  The component's React state and mutable refs are collected in
a state record `St`; each browser/session event (button clicks, session
callbacks, audio-source completion) becomes a constructor of `Ev`, and the
handlers of `App.tsx` are translated into a step function `step : St → Ev → St`.

Ghost history fields (the `schedule` log with interruption epochs, and the
`stoppedLog` of sources on which `stop()` was called) record observable
actions the code performs on the Web Audio API; they are written exactly where
the code calls `source.start(t)` / `s.stop()` and are read by no handler.
-/

/-- The `AppState` enum from src/types.ts. -/
inductive AppState where
  | IDLE
  | CONNECTING
  | LISTENING
  | ERROR
deriving DecidableEq, Repr

/-- The `VerseIdentification` interface from src/types.ts. -/
structure VerseIdentification where
  surahName : String
  ayahNumber : String
  transcription : String
  translationEn : String
  translationEs : String
deriving DecidableEq, Repr

/-- One entry of the ghost schedule log: a buffer scheduled via
`source.start(start)` with the given duration, tagged with the number of
interruption events that preceded its scheduling. -/
structure ScheduledBuf where
  epoch : Nat
  start : Rat
  dur : Rat
deriving DecidableEq, Repr

/-- The component state of `App`: React `useState` values (`appState`,
`verseHistory`, `error`, `isVerifyingSequence`) and the mutable refs
(`sessionRef`, `audioContextRef`, `outputAudioContextRef`, `nextStartTimeRef`,
`sourcesRef`, `transcriptionBufferRef`, `lastVerseRef`).  Refs holding open
handles are modelled by a Bool saying whether the ref is non-null; audio
sources are identified by the Nat counter `nextSourceId`.  `schedule`,
`epoch` and `stoppedLog` are ghost history fields (see module comment). -/
structure St where
  appState : AppState
  verseHistory : List VerseIdentification
  error : Option String
  isVerifyingSequence : Bool
  sessionOpen : Bool
  audioCtxOpen : Bool
  outputCtxOpen : Bool
  nextStartTime : Rat
  sources : List Nat
  nextSourceId : Nat
  lastVerse : Option (String × String)
  userBuf : String
  modelBuf : String
  epoch : Nat
  schedule : List ScheduledBuf
  stoppedLog : List Nat
deriving DecidableEq, Repr

/-- A function call inside a `toolCall` server message; `args` is cast to
`VerseIdentification` as in `fc.args as unknown as VerseIdentification`. -/
structure FunctionCall where
  name : String
  args : VerseIdentification
deriving DecidableEq, Repr

/-- The parts of a `LiveServerMessage` that the `onmessage` handler reads:
`audio` is the duration of the decodable inline audio buffer when present,
`interrupted` and `turnComplete` the corresponding `serverContent` flags,
`inputTranscription` the transcription text, `functionCalls` the list of
calls when `message.toolCall` is present. -/
structure ServerMessage where
  audio : Option Rat
  interrupted : Bool
  inputTranscription : Option String
  functionCalls : Option (List FunctionCall)
  turnComplete : Bool
deriving DecidableEq, Repr

/-- Where `startSession` fails, when it fails: `beforeContexts` is a rejection
of `getUserMedia` (before the two `AudioContext`s are created), `afterContexts`
a rejection of the connect promise (after both contexts are created). -/
inductive StartFailure where
  | beforeContexts (msg : String)
  | afterContexts (msg : String)
deriving DecidableEq, Repr

/-- Events driving the component.  `startBegin` is the synchronous prefix of
`startSession` (runs only when the button shows the mic, i.e. in IDLE);
`startFail` is the `catch` branch; `startOk` the resolution of the connect
promise; `openEv`/`message`/`errorEv`/`closeEv` the session callbacks
(`message` carries the output context's `currentTime`); `stopEv` the stop
button; `ended i` the `ended` listener of audio source `i`. -/
inductive Ev where
  | startBegin
  | startFail (f : StartFailure)
  | startOk
  | openEv
  | message (now : Rat) (m : ServerMessage)
  | errorEv
  | closeEv
  | stopEv
  | ended (i : Nat)
deriving DecidableEq, Repr

/-- Teardown actions `stopSession` may perform (a `close()` call on each
non-null handle). -/
inductive CloseAct where
  | session
  | audioCtx
  | outputCtx
deriving DecidableEq, Repr

/-- Function `stopSession` from App.tsx: closes and nulls the session and both audio
contexts (each guarded by a null check), sets the state to IDLE and the
sequential flag to false.  Returns the new state together with the list of
`close()` calls actually performed. -/
def stopSession (s : St) : St × List CloseAct :=
  let acts := (if s.sessionOpen then [CloseAct.session] else [])
    ++ (if s.audioCtxOpen then [CloseAct.audioCtx] else [])
    ++ (if s.outputCtxOpen then [CloseAct.outputCtx] else [])
  ({ s with sessionOpen := false
            audioCtxOpen := false
            outputCtxOpen := false
            appState := AppState.IDLE
            isVerifyingSequence := false }, acts)

/-- The audio branch of `onmessage`: when the message carries inline audio and
the output context ref is non-null, clamp the next-start time up to the
current clock, schedule the decoded buffer at that time, advance the
next-start time by the buffer's duration, and add the new source to the set. -/
def handleAudio (now : Rat) (audio : Option Rat) (s : St) : St :=
  match audio with
  | none => s
  | some d =>
    if s.outputCtxOpen then
      let start := max s.nextStartTime now
      { s with nextStartTime := start + d
               schedule := s.schedule ++ [⟨s.epoch, start, d⟩]
               sources := s.sources ++ [s.nextSourceId]
               nextSourceId := s.nextSourceId + 1 }
    else s

/-- The `interrupted` branch of `onmessage`: stop every source in the set,
clear the set, reset the next-start time to 0.  The ghost `epoch` counter is
bumped and the stopped ids appended to the ghost `stoppedLog`. -/
def handleInterrupted (s : St) : St :=
  { s with sources := []
           nextStartTime := 0
           epoch := s.epoch + 1
           stoppedLog := s.stoppedLog ++ s.sources }

/-- The `setVerseHistory` updater: append the identification unless an entry
with the same `surahName` and `ayahNumber` is already present. -/
def applyVerse (result : VerseIdentification) (prev : List VerseIdentification) :
    List VerseIdentification :=
  let isDuplicate := prev.any fun v =>
    v.surahName == result.surahName && v.ayahNumber == result.ayahNumber
  if isDuplicate then prev else prev ++ [result]

/-- The body of the `for (const fc of message.toolCall.functionCalls)` loop:
for a call named `identifyQuranVerse`, record the last verse, set the
sequential flag, and run the history updater; other calls do nothing. -/
def handleFunctionCall (s : St) (fc : FunctionCall) : St :=
  if fc.name == "identifyQuranVerse" then
    { s with lastVerse := some (fc.args.surahName, fc.args.ayahNumber)
             isVerifyingSequence := true
             verseHistory := applyVerse fc.args s.verseHistory }
  else s

/-- The `toolCall` branch of `onmessage`: iterate over the function calls. -/
def handleToolCall (fcs : List FunctionCall) (s : St) : St :=
  fcs.foldl handleFunctionCall s

/-- Handler `onmessage` from App.tsx, in source order: audio scheduling, interruption,
input transcription buffering, tool calls, turn completion. -/
def onmessage (now : Rat) (m : ServerMessage) (s : St) : St :=
  let s1 := handleAudio now m.audio s
  let s2 := if m.interrupted then handleInterrupted s1 else s1
  let s3 := match m.inputTranscription with
    | some t => { s2 with userBuf := s2.userBuf ++ t }
    | none => s2
  let s4 := match m.functionCalls with
    | some fcs => handleToolCall fcs s3
    | none => s3
  if m.turnComplete then { s4 with userBuf := "", modelBuf := "" } else s4

/-- The error message of the `startSession` catch branch:
`err.message || 'Failed to start session.'`. -/
def startErrMsg (msg : String) : String :=
  if msg.isEmpty then "Failed to start session." else msg

/-- The synchronous prefix of `startSession`: clear the error, go to
CONNECTING, clear the transcriptions, verse history, last verse and
transcription buffer. -/
def startBeginSt (s : St) : St :=
  { s with error := none
           appState := AppState.CONNECTING
           verseHistory := []
           lastVerse := none
           userBuf := ""
           modelBuf := "" }

/-- The `catch` branch of `startSession`: set the error message and return to
IDLE.  When the failure happened after the two audio contexts were created
(`afterContexts`), those refs hold open contexts that the branch does not
close. -/
def startFailSt (f : StartFailure) (s : St) : St :=
  match f with
  | StartFailure.beforeContexts msg =>
      { s with error := some (startErrMsg msg), appState := AppState.IDLE }
  | StartFailure.afterContexts msg =>
      { s with audioCtxOpen := true
               outputCtxOpen := true
               error := some (startErrMsg msg)
               appState := AppState.IDLE }

/-- The successful completion of `startSession`: both audio contexts created
and `sessionRef.current = await sessionPromise`. -/
def startOkSt (s : St) : St :=
  { s with audioCtxOpen := true, outputCtxOpen := true, sessionOpen := true }

/-- Handler `onopen`: the session reports open; the state becomes LISTENING (the audio
wiring performed there touches no modelled state). -/
def onopen (s : St) : St :=
  { s with appState := AppState.LISTENING }

/-- Handler `onerror`: set the stream-error message, then `stopSession`. -/
def onerror (s : St) : St :=
  (stopSession { s with
    error := some "Stream error. This is often caused by network latency." }).1

/-- Handler `onclose`: back to IDLE, sequential flag off (refs are not cleared). -/
def onclose (s : St) : St :=
  { s with appState := AppState.IDLE, isVerifyingSequence := false }

/-- The `ended` listener of an audio source: remove it from the set. -/
def handleEnded (i : Nat) (s : St) : St :=
  { s with sources := s.sources.filter (fun j => j ≠ i) }

/-- One event step of the component. -/
def step (s : St) (e : Ev) : St :=
  match e with
  | Ev.startBegin => startBeginSt s
  | Ev.startFail f => startFailSt f s
  | Ev.startOk => startOkSt s
  | Ev.openEv => onopen s
  | Ev.message now m => onmessage now m s
  | Ev.errorEv => onerror s
  | Ev.closeEv => onclose s
  | Ev.stopEv => (stopSession s).1
  | Ev.ended i => handleEnded i s

/-- The initial component state: all `useState` initial values and null refs. -/
def init : St :=
  { appState := AppState.IDLE
    verseHistory := []
    error := none
    isVerifyingSequence := false
    sessionOpen := false
    audioCtxOpen := false
    outputCtxOpen := false
    nextStartTime := 0
    sources := []
    nextSourceId := 0
    lastVerse := none
    userBuf := ""
    modelBuf := ""
    epoch := 0
    schedule := []
    stoppedLog := [] }

/-- Run a sequence of events from a state. -/
def run (s : St) (evs : List Ev) : St :=
  evs.foldl step s

/-- Which events can fire in which state.  `startBegin` and `stopEv` come from
the single button (`onClick` dispatches on `appState === IDLE`, and the button
is disabled while CONNECTING); `startFail`/`startOk`/`openEv` belong to a
start attempt in flight; the session callbacks `message`/`errorEv` fire on the
open session, and `closeEv` also after a local `close()`. -/
def evGuard (s : St) (e : Ev) : Bool :=
  match e with
  | Ev.startBegin => s.appState == AppState.IDLE
  | Ev.startFail _ => s.appState == AppState.CONNECTING
  | Ev.startOk => s.appState == AppState.CONNECTING
  | Ev.openEv => s.appState == AppState.CONNECTING
  | Ev.message _ _ => s.appState == AppState.LISTENING
  | Ev.errorEv => s.appState == AppState.LISTENING
  | Ev.closeEv => s.appState == AppState.LISTENING || s.appState == AppState.IDLE
  | Ev.stopEv => s.appState != AppState.IDLE && s.appState != AppState.CONNECTING
  | Ev.ended _ => true

/-- Run a sequence of events, checking the environment evGuard at each step. -/
def runG (s : St) : List Ev → Option St
  | [] => some s
  | e :: evs => if evGuard s e then runG (step s e) evs else none

/-! ### Field-preservation lemmas for the message handler -/

theorem handleAudio_some (now d : Rat) (s : St) :
    handleAudio now (some d) s =
      if s.outputCtxOpen then
        { s with nextStartTime := max s.nextStartTime now + d
                 schedule := s.schedule ++ [⟨s.epoch, max s.nextStartTime now, d⟩]
                 sources := s.sources ++ [s.nextSourceId]
                 nextSourceId := s.nextSourceId + 1 }
      else s := rfl

@[simp] theorem handleAudio_verseHistory (now : Rat) (a : Option Rat) (s : St) :
    (handleAudio now a s).verseHistory = s.verseHistory := by
  cases a with
  | none => rfl
  | some d => rw [handleAudio_some]; split <;> rfl

@[simp] theorem handleAudio_isVerifyingSequence (now : Rat) (a : Option Rat) (s : St) :
    (handleAudio now a s).isVerifyingSequence = s.isVerifyingSequence := by
  cases a with
  | none => rfl
  | some d => rw [handleAudio_some]; split <;> rfl

@[simp] theorem handleAudio_appState (now : Rat) (a : Option Rat) (s : St) :
    (handleAudio now a s).appState = s.appState := by
  cases a with
  | none => rfl
  | some d => rw [handleAudio_some]; split <;> rfl

@[simp] theorem handleAudio_epoch (now : Rat) (a : Option Rat) (s : St) :
    (handleAudio now a s).epoch = s.epoch := by
  cases a with
  | none => rfl
  | some d => rw [handleAudio_some]; split <;> rfl

@[simp] theorem handleAudio_stoppedLog (now : Rat) (a : Option Rat) (s : St) :
    (handleAudio now a s).stoppedLog = s.stoppedLog := by
  cases a with
  | none => rfl
  | some d => rw [handleAudio_some]; split <;> rfl

@[simp] theorem handleInterrupted_verseHistory (s : St) :
    (handleInterrupted s).verseHistory = s.verseHistory := rfl

@[simp] theorem handleInterrupted_isVerifyingSequence (s : St) :
    (handleInterrupted s).isVerifyingSequence = s.isVerifyingSequence := rfl

@[simp] theorem handleInterrupted_appState (s : St) :
    (handleInterrupted s).appState = s.appState := rfl

@[simp] theorem handleInterrupted_schedule (s : St) :
    (handleInterrupted s).schedule = s.schedule := rfl

/-- Any state observation untouched by a single function call is untouched by
the whole `toolCall` loop. -/
theorem handleToolCall_preserves {α : Type} (f : St → α)
    (h : ∀ s fc, f (handleFunctionCall s fc) = f s) :
    ∀ (fcs : List FunctionCall) (s : St), f (handleToolCall fcs s) = f s := by
  intro fcs
  induction fcs with
  | nil => intro s; rfl
  | cons fc rest ih =>
      intro s
      show f (handleToolCall rest (handleFunctionCall s fc)) = f s
      rw [ih, h]

@[simp] theorem handleFunctionCall_appState (s : St) (fc : FunctionCall) :
    (handleFunctionCall s fc).appState = s.appState := by
  unfold handleFunctionCall; split <;> rfl

@[simp] theorem handleFunctionCall_sources (s : St) (fc : FunctionCall) :
    (handleFunctionCall s fc).sources = s.sources := by
  unfold handleFunctionCall; split <;> rfl

@[simp] theorem handleFunctionCall_nextStartTime (s : St) (fc : FunctionCall) :
    (handleFunctionCall s fc).nextStartTime = s.nextStartTime := by
  unfold handleFunctionCall; split <;> rfl

@[simp] theorem handleFunctionCall_schedule (s : St) (fc : FunctionCall) :
    (handleFunctionCall s fc).schedule = s.schedule := by
  unfold handleFunctionCall; split <;> rfl

@[simp] theorem handleFunctionCall_epoch (s : St) (fc : FunctionCall) :
    (handleFunctionCall s fc).epoch = s.epoch := by
  unfold handleFunctionCall; split <;> rfl

@[simp] theorem handleFunctionCall_stoppedLog (s : St) (fc : FunctionCall) :
    (handleFunctionCall s fc).stoppedLog = s.stoppedLog := by
  unfold handleFunctionCall; split <;> rfl

@[simp] theorem handleToolCall_appState (fcs : List FunctionCall) (s : St) :
    (handleToolCall fcs s).appState = s.appState :=
  handleToolCall_preserves St.appState (fun _ _ => handleFunctionCall_appState _ _) fcs s

@[simp] theorem handleToolCall_sources (fcs : List FunctionCall) (s : St) :
    (handleToolCall fcs s).sources = s.sources :=
  handleToolCall_preserves St.sources (fun _ _ => handleFunctionCall_sources _ _) fcs s

@[simp] theorem handleToolCall_nextStartTime (fcs : List FunctionCall) (s : St) :
    (handleToolCall fcs s).nextStartTime = s.nextStartTime :=
  handleToolCall_preserves St.nextStartTime (fun _ _ => handleFunctionCall_nextStartTime _ _) fcs s

@[simp] theorem handleToolCall_schedule (fcs : List FunctionCall) (s : St) :
    (handleToolCall fcs s).schedule = s.schedule :=
  handleToolCall_preserves St.schedule (fun _ _ => handleFunctionCall_schedule _ _) fcs s

@[simp] theorem handleToolCall_epoch (fcs : List FunctionCall) (s : St) :
    (handleToolCall fcs s).epoch = s.epoch :=
  handleToolCall_preserves St.epoch (fun _ _ => handleFunctionCall_epoch _ _) fcs s

@[simp] theorem handleToolCall_stoppedLog (fcs : List FunctionCall) (s : St) :
    (handleToolCall fcs s).stoppedLog = s.stoppedLog :=
  handleToolCall_preserves St.stoppedLog (fun _ _ => handleFunctionCall_stoppedLog _ _) fcs s

theorem onmessage_appState (now : Rat) (m : ServerMessage) (s : St) :
    (onmessage now m s).appState = s.appState := by
  obtain ⟨a, i, t, f, tc⟩ := m
  unfold onmessage
  cases i <;> cases tc <;> cases t <;> cases f <;> simp

/-! ### Trace induction helpers -/

theorem run_cons (s : St) (e : Ev) (evs : List Ev) :
    run s (e :: evs) = run (step s e) evs := rfl

theorem run_inv {P : St → Prop} (hstep : ∀ s e, P s → P (step s e)) :
    ∀ (evs : List Ev) (s : St), P s → P (run s evs) := by
  intro evs
  induction evs with
  | nil => intro s h; exact h
  | cons e rest ih => intro s h; exact ih (step s e) (hstep s e h)

theorem runG_inv {P : St → Prop} (hstep : ∀ s e, P s → P (step s e)) :
    ∀ (evs : List Ev) (s s' : St), P s → runG s evs = some s' → P s' := by
  intro evs
  induction evs with
  | nil =>
      intro s s' h hrun
      simp [runG] at hrun
      exact hrun ▸ h
  | cons e rest ih =>
      intro s s' h hrun
      by_cases hg : evGuard s e = true
      · simp [runG, hg] at hrun
        exact ih (step s e) s' (hstep s e h) hrun
      · simp [runG, hg] at hrun

/-- No handler ever assigns `AppState.ERROR`. -/
theorem step_appState_ne_error (s : St) (e : Ev) (h : s.appState ≠ AppState.ERROR) :
    (step s e).appState ≠ AppState.ERROR := by
  cases e with
  | startBegin => simp [step, startBeginSt]
  | startFail f => cases f <;> simp [step, startFailSt]
  | startOk => simpa [step, startOkSt] using h
  | openEv => simp [step, onopen]
  | message now m => simpa [step, onmessage_appState] using h
  | errorEv => simp [step, onerror, stopSession]
  | closeEv => simp [step, onclose]
  | stopEv => simp [step, stopSession]
  | ended i => simpa [step, handleEnded] using h

/-! ### Claims -/

/-- C9: in every reachable state (indeed after every event sequence whatever),
the application state never equals the `ERROR` member of `AppState`: no
handler assigns it, and error conditions are reported only through the
separate error string while the state returns to idle. -/
theorem C9_appState_never_ERROR (evs : List Ev) :
    (run init evs).appState ≠ AppState.ERROR :=
  run_inv step_appState_ne_error evs init (by simp [init])

/-- C10: `stopSession` is idempotent: run on any state it produced, it
performs no `close()` call and returns that state unchanged (the handles are
already null, the state already IDLE and the flag already false). -/
theorem C10_stopSession_idempotent (s : St) :
    stopSession ((stopSession s).1) = ((stopSession s).1, ([] : List CloseAct)) := rfl

/-! ### The verse history and the sequential flag through the tool-call loop -/

/-- The effect of the `toolCall` loop on the verse history alone. -/
def applyCalls (fcs : List FunctionCall) (h : List VerseIdentification) :
    List VerseIdentification :=
  fcs.foldl (fun h fc =>
    if fc.name == "identifyQuranVerse" then applyVerse fc.args h else h) h

theorem handleFunctionCall_verseHistory (s : St) (fc : FunctionCall) :
    (handleFunctionCall s fc).verseHistory =
      (if fc.name == "identifyQuranVerse" then applyVerse fc.args s.verseHistory
       else s.verseHistory) := by
  unfold handleFunctionCall; split <;> simp_all

theorem handleToolCall_verseHistory (fcs : List FunctionCall) (s : St) :
    (handleToolCall fcs s).verseHistory = applyCalls fcs s.verseHistory := by
  induction fcs generalizing s with
  | nil => rfl
  | cons fc rest ih =>
      show (handleToolCall rest (handleFunctionCall s fc)).verseHistory = _
      rw [ih]
      unfold applyCalls
      rw [List.foldl_cons, handleFunctionCall_verseHistory]

theorem handleFunctionCall_isVerifyingSequence (s : St) (fc : FunctionCall) :
    (handleFunctionCall s fc).isVerifyingSequence =
      (s.isVerifyingSequence || (fc.name == "identifyQuranVerse")) := by
  unfold handleFunctionCall
  by_cases h : (fc.name == "identifyQuranVerse") = true <;> simp [h]

theorem handleToolCall_isVerifyingSequence (fcs : List FunctionCall) (s : St) :
    (handleToolCall fcs s).isVerifyingSequence =
      (s.isVerifyingSequence || fcs.any fun fc => fc.name == "identifyQuranVerse") := by
  induction fcs generalizing s with
  | nil => simp [handleToolCall]
  | cons fc rest ih =>
      show (handleToolCall rest (handleFunctionCall s fc)).isVerifyingSequence = _
      rw [ih, handleFunctionCall_isVerifyingSequence]
      simp [Bool.or_assoc]

theorem onmessage_verseHistory (now : Rat) (m : ServerMessage) (s : St) :
    (onmessage now m s).verseHistory =
      applyCalls (m.functionCalls.getD []) s.verseHistory := by
  obtain ⟨a, i, t, f, tc⟩ := m
  unfold onmessage
  cases i <;> cases tc <;> cases t <;> cases f <;>
    simp [handleToolCall_verseHistory, applyCalls]

theorem onmessage_isVerifyingSequence (now : Rat) (m : ServerMessage) (s : St) :
    (onmessage now m s).isVerifyingSequence =
      (s.isVerifyingSequence ||
        (m.functionCalls.getD []).any fun fc => fc.name == "identifyQuranVerse") := by
  obtain ⟨a, i, t, f, tc⟩ := m
  unfold onmessage
  cases i <;> cases tc <;> cases t <;> cases f <;>
    simp [handleToolCall_isVerifyingSequence, applyCalls]

/-- Does the event carry a tool call named `identifyQuranVerse`? -/
def namesIdentifyVerse : Ev → Bool
  | Ev.message _ m => (m.functionCalls.getD []).any fun fc => fc.name == "identifyQuranVerse"
  | _ => false

/-- Events that stop or close the session (the stop button, the `onclose`
callback, and `onerror`, whose handler invokes `stopSession`). -/
def endsSession : Ev → Bool
  | Ev.stopEv => true
  | Ev.closeEv => true
  | Ev.errorEv => true
  | _ => false

/-- C6: after any event, the sequential-prediction flag is true when the event
is a tool call naming `identifyQuranVerse`, false when the event stops or
closes the session, and unchanged otherwise. -/
theorem C6_isVerifyingSequence_toggle (s : St) (e : Ev) :
    (step s e).isVerifyingSequence =
      (if namesIdentifyVerse e then true
       else if endsSession e then false
       else s.isVerifyingSequence) := by
  cases e with
  | startBegin => simp [step, startBeginSt, namesIdentifyVerse, endsSession]
  | startFail f => cases f <;> simp [step, startFailSt, namesIdentifyVerse, endsSession]
  | startOk => simp [step, startOkSt, namesIdentifyVerse, endsSession]
  | openEv => simp [step, onopen, namesIdentifyVerse, endsSession]
  | message now m =>
      rw [show step s (Ev.message now m) = onmessage now m s from rfl,
        onmessage_isVerifyingSequence]
      simp only [namesIdentifyVerse, endsSession]
      cases h : (m.functionCalls.getD []).any fun fc => fc.name == "identifyQuranVerse" <;>
        simp [h]
  | errorEv => simp [step, onerror, stopSession, namesIdentifyVerse, endsSession]
  | closeEv => simp [step, onclose, namesIdentifyVerse, endsSession]
  | stopEv => simp [step, stopSession, namesIdentifyVerse, endsSession]
  | ended i => simp [step, handleEnded, namesIdentifyVerse, endsSession]

/-- Appending at most one entry: `applyVerse` either returns the history
unchanged or appends the new identification at the end. -/
theorem applyVerse_extends (r : VerseIdentification) (h : List VerseIdentification) :
    ∃ t, applyVerse r h = h ++ t := by
  unfold applyVerse
  by_cases hd : (h.any fun v =>
      v.surahName == r.surahName && v.ayahNumber == r.ayahNumber) = true
  · exact ⟨[], by simp [hd]⟩
  · exact ⟨[r], by simp [hd]⟩

theorem applyCalls_extends (fcs : List FunctionCall) (h : List VerseIdentification) :
    ∃ t, applyCalls fcs h = h ++ t := by
  induction fcs generalizing h with
  | nil => exact ⟨[], by simp [applyCalls]⟩
  | cons fc rest ih =>
      show ∃ t, applyCalls rest
        (if fc.name == "identifyQuranVerse" then applyVerse fc.args h else h) = h ++ t
      by_cases hn : (fc.name == "identifyQuranVerse") = true
      · obtain ⟨t1, h1⟩ := applyVerse_extends fc.args h
        obtain ⟨t2, h2⟩ := ih (applyVerse fc.args h)
        exact ⟨t1 ++ t2, by
          simp only [hn, if_true]
          rw [h2, h1, List.append_assoc]⟩
      · obtain ⟨t2, h2⟩ := ih h
        simp only [hn]
        exact ⟨t2, by simpa using h2⟩

/-- C7: processing any message event only ever appends to the verse history:
every entry already present stays unchanged, at its position, and new
identifications are added at the end. -/
theorem C7_verseHistory_append_only (s : St) (now : Rat) (m : ServerMessage) :
    ∃ t, (step s (Ev.message now m)).verseHistory = s.verseHistory ++ t := by
  obtain ⟨t, ht⟩ := applyCalls_extends (m.functionCalls.getD []) s.verseHistory
  exact ⟨t, by
    rw [show step s (Ev.message now m) = onmessage now m s from rfl,
      onmessage_verseHistory, ht]⟩

/-! ### Uniqueness of (surah, ayah) pairs in the verse history -/

/-- The deduplication key of a verse identification. -/
def verseKey (v : VerseIdentification) : String × String := (v.surahName, v.ayahNumber)

/-- No two entries of the history share a (surah, ayah) pair. -/
def NoDupKeys (h : List VerseIdentification) : Prop := (h.map verseKey).Nodup

theorem applyVerse_NoDupKeys (r : VerseIdentification) (h : List VerseIdentification)
    (hnd : NoDupKeys h) : NoDupKeys (applyVerse r h) := by
  unfold applyVerse
  by_cases hd : (h.any fun v =>
      v.surahName == r.surahName && v.ayahNumber == r.ayahNumber) = true
  · simpa [hd] using hnd
  · have hnot : ∀ v ∈ h, verseKey v ≠ verseKey r := by
      intro v hv heq
      have hk : v.surahName = r.surahName ∧ v.ayahNumber = r.ayahNumber := by
        simpa [verseKey, Prod.ext_iff] using heq
      exact hd (List.any_eq_true.mpr ⟨v, hv, by simp [hk.1, hk.2]⟩)
    simp only [hd, if_false]
    show (List.map verseKey (h ++ [r])).Nodup
    rw [List.map_append]
    refine List.Nodup.append hnd (List.nodup_singleton _) ?_
    intro a ha hb
    obtain ⟨v, hv, rfl⟩ := List.mem_map.mp ha
    exact hnot v hv (by simpa using hb)

theorem applyCalls_NoDupKeys (fcs : List FunctionCall) (h : List VerseIdentification)
    (hnd : NoDupKeys h) : NoDupKeys (applyCalls fcs h) := by
  induction fcs generalizing h with
  | nil => exact hnd
  | cons fc rest ih =>
      show NoDupKeys (applyCalls rest
        (if fc.name == "identifyQuranVerse" then applyVerse fc.args h else h))
      by_cases hn : (fc.name == "identifyQuranVerse") = true
      · simp only [hn, if_true]
        exact ih _ (applyVerse_NoDupKeys fc.args h hnd)
      · simp only [hn, if_false]
        exact ih _ hnd

theorem step_NoDupKeys (s : St) (e : Ev) (h : NoDupKeys s.verseHistory) :
    NoDupKeys (step s e).verseHistory := by
  cases e with
  | startBegin => simp [step, startBeginSt, NoDupKeys]
  | startFail f => cases f <;> simpa [step, startFailSt] using h
  | startOk => simpa [step, startOkSt] using h
  | openEv => simpa [step, onopen] using h
  | message now m =>
      rw [show step s (Ev.message now m) = onmessage now m s from rfl,
        onmessage_verseHistory]
      exact applyCalls_NoDupKeys _ _ h
  | errorEv => simpa [step, onerror, stopSession] using h
  | closeEv => simpa [step, onclose] using h
  | stopEv => simpa [step, stopSession] using h
  | ended i => simpa [step, handleEnded] using h

/-- C1: after every sequence of events, the verse history never contains two
entries with the same (surahName, ayahNumber) pair: the `identifyQuranVerse`
handler appends only when no existing entry has both the same surah name and
ayah number, so uniqueness by key is an invariant of every append. -/
theorem C1_verseHistory_NoDupKeys (evs : List Ev) :
    NoDupKeys (run init evs).verseHistory :=
  run_inv step_NoDupKeys evs init (by simp [init, NoDupKeys])

/-! ### Audio scheduling -/

@[simp] theorem handleInterrupted_nextStartTime (s : St) :
    (handleInterrupted s).nextStartTime = 0 := rfl

@[simp] theorem handleInterrupted_epoch (s : St) :
    (handleInterrupted s).epoch = s.epoch + 1 := rfl

@[simp] theorem handleInterrupted_sources (s : St) :
    (handleInterrupted s).sources = [] := rfl

@[simp] theorem handleInterrupted_stoppedLog (s : St) :
    (handleInterrupted s).stoppedLog = s.stoppedLog ++ s.sources := rfl

theorem onmessage_schedule (now : Rat) (m : ServerMessage) (s : St) :
    (onmessage now m s).schedule = (handleAudio now m.audio s).schedule := by
  obtain ⟨a, i, t, f, tc⟩ := m
  unfold onmessage
  cases i <;> cases tc <;> cases t <;> cases f <;> simp

theorem onmessage_nextStartTime_not_interrupted (now : Rat) (m : ServerMessage) (s : St)
    (h : m.interrupted = false) :
    (onmessage now m s).nextStartTime = (handleAudio now m.audio s).nextStartTime := by
  obtain ⟨a, i, t, f, tc⟩ := m
  cases h
  unfold onmessage
  cases tc <;> cases t <;> cases f <;> simp

/-- C2: an incoming message carrying a decodable audio buffer schedules it to
start at the maximum of the output clock and the running next-start time, and
(as long as the same message carries no interruption, which resets the clock
afterwards) leaves the next-start time advanced past that start by exactly the
buffer's duration. -/
theorem C2_audio_scheduling (s : St) (now d : Rat) (m : ServerMessage)
    (ha : m.audio = some d) (hctx : s.outputCtxOpen = true) :
    (step s (Ev.message now m)).schedule =
      s.schedule ++ [⟨s.epoch, max s.nextStartTime now, d⟩] ∧
    (m.interrupted = false →
      (step s (Ev.message now m)).nextStartTime = max s.nextStartTime now + d) := by
  constructor
  · rw [show step s (Ev.message now m) = onmessage now m s from rfl,
      onmessage_schedule, ha, handleAudio_some, if_pos hctx]
  · intro hi
    rw [show step s (Ev.message now m) = onmessage now m s from rfl,
      onmessage_nextStartTime_not_interrupted now m s hi, ha, handleAudio_some,
      if_pos hctx]

/-- Witness for C2 on a concrete session start followed by one audio message
of duration 1 at clock 0. -/
theorem C2_audio_scheduling_witness :
    (step (startOkSt init) (Ev.message 0 ⟨some 1, false, none, none, false⟩)).schedule =
      (startOkSt init).schedule ++
        [⟨(startOkSt init).epoch, max (startOkSt init).nextStartTime 0, 1⟩] ∧
    ((⟨some 1, false, none, none, false⟩ : ServerMessage).interrupted = false →
      (step (startOkSt init) (Ev.message 0 ⟨some 1, false, none, none, false⟩)).nextStartTime =
        max (startOkSt init).nextStartTime 0 + 1) :=
  C2_audio_scheduling (startOkSt init) 0 1 ⟨some 1, false, none, none, false⟩ rfl rfl

/-! ### Transient ownership of playback sources -/

theorem handleAudio_sources_mem (now : Rat) (a : Option Rat) (s : St) (j : Nat)
    (hj : j ∈ s.sources) : j ∈ (handleAudio now a s).sources := by
  cases a with
  | none => exact hj
  | some d =>
      rw [handleAudio_some]
      split
      · simpa using Or.inl hj
      · exact hj

theorem onmessage_interrupted (now : Rat) (m : ServerMessage) (s : St)
    (h : m.interrupted = true) :
    (onmessage now m s).sources = [] ∧
    (onmessage now m s).nextStartTime = 0 ∧
    (onmessage now m s).stoppedLog =
      (handleAudio now m.audio s).stoppedLog ++ (handleAudio now m.audio s).sources := by
  obtain ⟨a, i, t, f, tc⟩ := m
  cases h
  unfold onmessage
  cases tc <;> cases t <;> cases f <;> simp

/-- C8: membership in the playback-source set is transient.  When a source's
playback completes (`ended`), it leaves the set while other sources stay.  On
a message carrying an explicit interruption, every source that was in the set
is stopped (it appears in the stop log), the set becomes empty, and the
next-start clock is reset to zero. -/
theorem C8_sources_transient (s : St) (i : Nat) (now : Rat) (m : ServerMessage) :
    i ∉ (step s (Ev.ended i)).sources ∧
    (∀ j ∈ s.sources, j ≠ i → j ∈ (step s (Ev.ended i)).sources) ∧
    (m.interrupted = true →
      (step s (Ev.message now m)).sources = [] ∧
      (step s (Ev.message now m)).nextStartTime = 0 ∧
      ∀ j ∈ s.sources, j ∈ (step s (Ev.message now m)).stoppedLog) := by
  refine ⟨?_, ?_, ?_⟩
  · simp [step, handleEnded, List.mem_filter]
  · intro j hj hne
    simp [step, handleEnded, List.mem_filter, hj, hne]
  · intro hint
    obtain ⟨h1, h2, h3⟩ := onmessage_interrupted now m s hint
    refine ⟨h1, h2, ?_⟩
    intro j hj
    rw [show step s (Ev.message now m) = onmessage now m s from rfl, h3]
    exact List.mem_append_right _ (handleAudio_sources_mem now m.audio s j hj)

/-- A concrete reachable state with one source (id 0) in the playback set. -/
def sessionWithOneSource : St :=
  run init [Ev.startBegin, Ev.startOk, Ev.openEv,
    Ev.message 0 ⟨some 1, false, none, none, false⟩]

/-- Witness for C8: on that state, `ended 0` removes the source, and an
interruption message empties the set, resets the clock and stops source 0. -/
theorem C8_sources_transient_witness :
    0 ∉ (step sessionWithOneSource (Ev.ended 0)).sources ∧
    (step sessionWithOneSource (Ev.message 0 ⟨none, true, none, none, false⟩)).sources = [] ∧
    (step sessionWithOneSource (Ev.message 0 ⟨none, true, none, none, false⟩)).nextStartTime = 0 ∧
    0 ∈ (step sessionWithOneSource (Ev.message 0 ⟨none, true, none, none, false⟩)).stoppedLog := by
  have h := C8_sources_transient sessionWithOneSource 0 0 ⟨none, true, none, none, false⟩
  obtain ⟨hi, hk, hm⟩ := h
  obtain ⟨h1, h2, h3⟩ := hm rfl
  exact ⟨hi, h1, h2, h3 0 (by decide)⟩

/-! ### No overlap between consecutively scheduled buffers -/

/-- Ordering constraint between two consecutively scheduled buffers: if no
interruption separated them (same epoch), the later one must not start before
the earlier one's scheduled end. -/
def schedOk (a b : ScheduledBuf) : Prop :=
  a.epoch = b.epoch → a.start + a.dur ≤ b.start

theorem mem_of_getLast?_eq {α : Type} {l : List α} {a : α}
    (h : l.getLast? = some a) : a ∈ l := by
  obtain ⟨hne, heq⟩ := List.mem_getLast?_eq_getLast (show a ∈ l.getLast? from h)
  exact heq ▸ List.getLast_mem hne

/-- Scheduling invariant: the schedule log satisfies `schedOk` between
neighbours, every logged epoch is at most the current one, and within the
current epoch the next-start time is at least the last buffer's end. -/
def SchedInv (s : St) : Prop :=
  List.Chain' schedOk s.schedule ∧
  (∀ b ∈ s.schedule, b.epoch ≤ s.epoch) ∧
  (∀ b, s.schedule.getLast? = some b → b.epoch = s.epoch →
    b.start + b.dur ≤ s.nextStartTime)

theorem SchedInv_congr (s s' : St) (h1 : s'.schedule = s.schedule)
    (h2 : s'.epoch = s.epoch) (h3 : s'.nextStartTime = s.nextStartTime)
    (h : SchedInv s) : SchedInv s' := by
  rw [SchedInv, h1, h2, h3]
  exact h

theorem handleAudio_SchedInv (now : Rat) (a : Option Rat) (s : St)
    (h : SchedInv s) : SchedInv (handleAudio now a s) := by
  cases a with
  | none => exact h
  | some d =>
      rw [handleAudio_some]
      split
      · obtain ⟨hch, hep, hlast⟩ := h
        refine ⟨?_, ?_, ?_⟩
        · rw [List.chain'_append]
          refine ⟨hch, List.chain'_singleton _, ?_⟩
          intro x hx y hy
          have hy' : (⟨s.epoch, max s.nextStartTime now, d⟩ : ScheduledBuf) = y := by
            simpa using hy
          cases hy'
          intro hepoch
          calc x.start + x.dur ≤ s.nextStartTime := hlast x hx hepoch
            _ ≤ max s.nextStartTime now := le_max_left _ _
        · intro b hb
          rcases List.mem_append.mp hb with hb | hb
          · exact hep b hb
          · have : b = ⟨s.epoch, max s.nextStartTime now, d⟩ := by simpa using hb
            subst this
            exact le_refl _
        · intro b hb hbe
          rw [List.getLast?_concat] at hb
          cases hb
          exact le_refl _
      · exact h

theorem handleInterrupted_SchedInv (s : St) (h : SchedInv s) :
    SchedInv (handleInterrupted s) := by
  obtain ⟨hch, hep, hlast⟩ := h
  refine ⟨hch, ?_, ?_⟩
  · intro b hb
    exact Nat.le_succ_of_le (hep b hb)
  · intro b hb hbe
    have hmem := hep b (mem_of_getLast?_eq (show s.schedule.getLast? = some b by simpa using hb))
    have hbe' : b.epoch = s.epoch + 1 := by simpa using hbe
    omega

theorem step_SchedInv (s : St) (e : Ev) (h : SchedInv s) : SchedInv (step s e) := by
  cases e with
  | startBegin => exact SchedInv_congr s _ rfl rfl rfl h
  | startFail f => cases f <;> exact SchedInv_congr s _ rfl rfl rfl h
  | startOk => exact SchedInv_congr s _ rfl rfl rfl h
  | openEv => exact SchedInv_congr s _ rfl rfl rfl h
  | message now m =>
      obtain ⟨a, i, t, f, tc⟩ := m
      show SchedInv (onmessage now ⟨a, i, t, f, tc⟩ s)
      cases i with
      | false =>
          refine SchedInv_congr _ _ ?_ ?_ ?_ (handleAudio_SchedInv now a s h) <;>
            (cases tc <;> cases t <;> cases f <;> simp [onmessage])
      | true =>
          refine SchedInv_congr _ _ ?_ ?_ ?_
            (handleInterrupted_SchedInv _ (handleAudio_SchedInv now a s h)) <;>
            (cases tc <;> cases t <;> cases f <;> simp [onmessage])
  | errorEv => exact SchedInv_congr s _ rfl rfl rfl h
  | closeEv => exact SchedInv_congr s _ rfl rfl rfl h
  | stopEv => exact SchedInv_congr s _ rfl rfl rfl h
  | ended i => exact SchedInv_congr s _ rfl rfl rfl h

/-- A trace scheduling two buffers with the output clock running ahead of the
queue (a gap), then an interruption followed by a third buffer that starts
before the second one's scheduled end. -/
def gapOverlapTrace : List Ev :=
  [Ev.startBegin, Ev.startOk, Ev.openEv,
   Ev.message 0 ⟨some 1, false, none, none, false⟩,
   Ev.message 2 ⟨some 2, false, none, none, false⟩,
   Ev.message 2 ⟨none, true, none, none, false⟩,
   Ev.message 3 ⟨some 1, false, none, none, false⟩]

/-- C3 counterexample: after `gapOverlapTrace`, the first buffer's scheduled
end (0 + 1) is strictly before the second buffer's start (2) — a playback gap
— and the third buffer (scheduled after the interruption) starts at 3,
strictly before the second buffer's scheduled end (2 + 2) — an overlap of the
claimed kind across an interruption event. -/
theorem C3_counterexample :
    (run init gapOverlapTrace).schedule =
      [⟨0, 0, 1⟩, ⟨0, 2, 2⟩, ⟨1, 3, 1⟩] ∧
    ((0 : Rat) + 1 < 2) ∧
    ((3 : Rat) < 2 + 2) := by
  refine ⟨?_, by norm_num, by norm_num⟩
  norm_num [gapOverlapTrace, run, List.foldl, step, startBeginSt, startOkSt, onopen,
    onmessage, handleAudio, handleInterrupted, init]

/-- C3 amended: between consecutively scheduled buffers with no intervening
interruption, the later buffer never starts before the earlier buffer's
scheduled end; gaps (clock past the queue) are possible, and after an
interruption a new buffer may start before a stopped buffer's scheduled
end. -/
theorem C3_amended_no_overlap_within_epoch (evs : List Ev) :
    List.Chain' schedOk (run init evs).schedule :=
  (run_inv step_SchedInv evs init
    ⟨by simp [init], by simp [init], by simp [init]⟩).1

/-! ### State transitions -/

/-- The transition edges asserted by the specification:
idle→connecting→listening→idle, with error reachable from connecting or
listening. -/
def claimedEdge : AppState → AppState → Bool
  | AppState.IDLE, AppState.CONNECTING => true
  | AppState.CONNECTING, AppState.LISTENING => true
  | AppState.LISTENING, AppState.IDLE => true
  | AppState.CONNECTING, AppState.ERROR => true
  | AppState.LISTENING, AppState.ERROR => true
  | _, _ => false

/-- The transition edges the code actually takes: the spec's non-error edges
plus connecting→idle (start failure), and no edge into the error state. -/
def actualEdge : AppState → AppState → Bool
  | AppState.IDLE, AppState.CONNECTING => true
  | AppState.CONNECTING, AppState.LISTENING => true
  | AppState.LISTENING, AppState.IDLE => true
  | AppState.CONNECTING, AppState.IDLE => true
  | _, _ => false

/-- C4 counterexample: from the initial state, pressing start and having the
start attempt fail is a guarded event sequence whose second step moves the
application state from CONNECTING to IDLE — a transition outside the claimed
edge set (the claimed set only leaves CONNECTING toward LISTENING or
ERROR). -/
theorem C4_counterexample :
    runG init [Ev.startBegin] = some (startBeginSt init) ∧
    evGuard (startBeginSt init) (Ev.startFail (StartFailure.afterContexts "boom")) = true ∧
    (startBeginSt init).appState = AppState.CONNECTING ∧
    (step (startBeginSt init)
      (Ev.startFail (StartFailure.afterContexts "boom"))).appState = AppState.IDLE ∧
    claimedEdge AppState.CONNECTING AppState.IDLE = false :=
  ⟨rfl, rfl, rfl, rfl, rfl⟩

/-- C4 amended: under the environment guards, every state-changing transition
lies along idle→connecting→listening→idle or connecting→idle (start failure);
the ERROR state is never entered. -/
theorem C4_amended_transitions (evs : List Ev) (s : St) (e : Ev)
    (hreach : runG init evs = some s) (hg : evGuard s e = true)
    (hch : (step s e).appState ≠ s.appState) :
    actualEdge s.appState (step s e).appState = true := by
  have hne : s.appState ≠ AppState.ERROR :=
    runG_inv step_appState_ne_error evs init s (by simp [init]) hreach
  cases e with
  | startBegin =>
      have h : s.appState = AppState.IDLE := by simpa [evGuard] using hg
      simp [step, startBeginSt, h, actualEdge]
  | startFail f =>
      have h : s.appState = AppState.CONNECTING := by simpa [evGuard] using hg
      cases f <;> simp [step, startFailSt, h, actualEdge]
  | startOk =>
      simp [step, startOkSt] at hch
  | openEv =>
      have h : s.appState = AppState.CONNECTING := by simpa [evGuard] using hg
      simp [step, onopen, h, actualEdge]
  | message now m =>
      rw [show step s (Ev.message now m) = onmessage now m s from rfl,
        onmessage_appState] at hch
      exact absurd rfl hch
  | errorEv =>
      have h : s.appState = AppState.LISTENING := by simpa [evGuard] using hg
      simp [step, onerror, stopSession, h, actualEdge]
  | closeEv =>
      have h : s.appState = AppState.LISTENING ∨ s.appState = AppState.IDLE := by
        simpa [evGuard] using hg
      rcases h with h | h
      · simp [step, onclose, h, actualEdge]
      · rw [show (step s Ev.closeEv).appState = AppState.IDLE from rfl, h] at hch
        exact absurd rfl hch
  | stopEv =>
      have h : s.appState ≠ AppState.IDLE ∧ s.appState ≠ AppState.CONNECTING := by
        simpa [evGuard] using hg
      have hL : s.appState = AppState.LISTENING := by
        cases hA : s.appState <;> simp_all
      simp [step, stopSession, hL, actualEdge]
  | ended i =>
      simp [step, handleEnded] at hch

/-- Witness for the amended C4 at the initial state and the start press. -/
theorem C4_amended_transitions_witness :
    actualEdge init.appState (step init Ev.startBegin).appState = true :=
  C4_amended_transitions [] init Ev.startBegin rfl rfl (by
    simp [step, startBeginSt, init])

/-! ### Error surfacing and teardown -/

/-- The trace of a start attempt that fails after both audio contexts were
created (e.g. the connect promise rejects). -/
def failedStartTrace : List Ev :=
  [Ev.startBegin, Ev.startFail (StartFailure.afterContexts "mic error")]

/-- C5 counterexample: a failure to start a session is surfaced as a message
and the state returns to idle, but the claimed teardown does not happen: both
audio context refs still hold open contexts afterwards. -/
theorem C5_counterexample :
    (run init failedStartTrace).error = some "mic error" ∧
    (run init failedStartTrace).appState = AppState.IDLE ∧
    (run init failedStartTrace).audioCtxOpen = true ∧
    (run init failedStartTrace).outputCtxOpen = true :=
  ⟨rfl, rfl, rfl, rfl⟩

/-- C5 amended: a stream error is surfaced as a single message and causes full
teardown (session and both audio contexts closed and cleared, state idle); a
failure to start a session is surfaced as a single message and returns the
state to idle, but tears nothing down: audio contexts created before the
failure stay open, and the session ref is left as it was. -/
theorem C5_amended_error_surfacing (s : St) (msg : String) :
    ((step s Ev.errorEv).error =
        some "Stream error. This is often caused by network latency." ∧
      (step s Ev.errorEv).sessionOpen = false ∧
      (step s Ev.errorEv).audioCtxOpen = false ∧
      (step s Ev.errorEv).outputCtxOpen = false ∧
      (step s Ev.errorEv).appState = AppState.IDLE) ∧
    ((step s (Ev.startFail (StartFailure.afterContexts msg))).error =
        some (startErrMsg msg) ∧
      (step s (Ev.startFail (StartFailure.afterContexts msg))).appState = AppState.IDLE ∧
      (step s (Ev.startFail (StartFailure.afterContexts msg))).audioCtxOpen = true ∧
      (step s (Ev.startFail (StartFailure.afterContexts msg))).outputCtxOpen = true ∧
      (step s (Ev.startFail (StartFailure.afterContexts msg))).sessionOpen =
        s.sessionOpen) ∧
    ((step s (Ev.startFail (StartFailure.beforeContexts msg))).error =
        some (startErrMsg msg) ∧
      (step s (Ev.startFail (StartFailure.beforeContexts msg))).appState = AppState.IDLE ∧
      (step s (Ev.startFail (StartFailure.beforeContexts msg))).audioCtxOpen =
        s.audioCtxOpen ∧
      (step s (Ev.startFail (StartFailure.beforeContexts msg))).sessionOpen =
        s.sessionOpen) :=
  ⟨⟨rfl, rfl, rfl, rfl, rfl⟩, ⟨rfl, rfl, rfl, rfl, rfl⟩, ⟨rfl, rfl, rfl, rfl⟩⟩
